import Mathlib

/-
Verification of the envalid validation engine (src/index.js) against its
natural-language specification.

The JavaScript source is shallowly embedded: JS runtime values are modelled
by the inductive `JSVal` (with `undef` standing for `undefined`), JS objects
used as string-keyed maps are association lists in insertion order, and
thrown exceptions are modelled with `Except JSError`.  Functions carry the
names of their JS counterparts where Lean allows it.
-/

set_option autoImplicit false

namespace Envalid

/-- A JavaScript runtime value, as far as the validation engine observes it.
`undef` models `undefined`; `testOnlySym` models the module-level
`testOnlySymbol = Symbol('envalid - test only')`. -/
inductive JSVal where
  | str (s : String)
  | num (n : Int)
  | bool (b : Bool)
  | null
  | undef
  | testOnlySym
  deriving DecidableEq, Repr

/-- JS truthiness of a value (used by `getEnv` for `!env.NODE_ENV`). -/
def jsTruthy : JSVal → Bool
  | .str s => !s.isEmpty
  | .num n => n != 0
  | .bool b => b
  | .null => false
  | JSVal.undef => false
  | .testOnlySym => true

/-- The string a value interpolates to inside a JS template literal
(approximate for the symbol, which never reaches a message in practice). -/
def jsToDisplay : JSVal → String
  | .str s => s
  | .num n => toString n
  | .bool b => if b then "true" else "false"
  | .null => "null"
  | JSVal.undef => "undefined"
  | .testOnlySym => "Symbol(envalid - test only)"

/-- The error classes thrown by the engine: `EnvError`, `EnvMissingError`
(from lib/validators) and the built-in `TypeError`. -/
inductive JSError where
  | envError (msg : String)
  | envMissingError (msg : String)
  | typeError (msg : String)
  deriving DecidableEq, Repr

/-- A JS object used as a string-keyed map, in property insertion order.
Present-with-`undefined` is `(k, JSVal.undef)`; an absent key has no entry. -/
abbrev EnvMap := List (String × JSVal)

/-- Property read `m[k]`: first entry with the key, or none. -/
def lookupKey {α : Type} : List (String × α) → String → Option α
  | [], _ => none
  | (k', v') :: rest, k => if k' = k then some v' else lookupKey rest k

/-- JS property read on an object: an absent key reads as `undefined`. -/
def readJS (m : EnvMap) (k : String) : JSVal :=
  (lookupKey m k).getD JSVal.undef

/-- JS property assignment `m[k] = v`: updates an existing entry in place
(keeping its position), otherwise appends. -/
def setKey {α : Type} : List (String × α) → String → α → List (String × α)
  | [], k, v => [(k, v)]
  | (k', v') :: rest, k, v =>
      if k' = k then (k, v) :: rest else (k', v') :: setKey rest k v

/-- Remove `delete m[k]`. -/
def eraseKey {α : Type} (m : List (String × α)) (k : String) : List (String × α) :=
  m.filter (fun p => !(p.1 = k : Bool))

/-- `spec.choices`, when the property is truthy.  `arr` is a real JS array;
`notArray` is any other truthy value (rejected by `Array.isArray`). -/
inductive JSChoices where
  | arr (xs : List JSVal)
  | notArray
  deriving Repr

/-- A spec object as consumed by the engine.  `Option` on `default?` and
`devDefault?` records own-property presence (`hasOwnProperty`), so
`some JSVal.undef` is a property explicitly set to `undefined`.
`parse?` is `some` exactly when `typeof spec._parse === 'function'`;
the function itself may throw (`Except.error`).  `requiredWhen?` is `some`
exactly when `typeof spec.requiredWhen === 'function'`; the JS predicate's
truthiness is returned as a `Bool`.  `choices?` is `some` exactly when
`spec.choices` is truthy. -/
structure Spec where
  parse? : Option (JSVal → Except JSError JSVal) := none
  choices? : Option JSChoices := none
  default? : Option JSVal := none
  devDefault? : Option JSVal := none
  requiredWhen? : Option (EnvMap → Bool) := none
  desc : Option String := none
  exampleText : Option String := none
  docs : Option String := none

/-- src/index.js `formatSpecDescription`: template interpolation renders an
undefined `desc` as the string "undefined"; the trailing `|| ''` is the
identity on strings and is dropped. -/
def formatSpecDescription (spec : Spec) : String :=
  let egText := match spec.exampleText with
    | some e => if e.isEmpty then "" else " (eg. \"" ++ e ++ "\")"
    | none => ""
  let docsText := match spec.docs with
    | some d => if d.isEmpty then "" else ". See " ++ d
    | none => ""
  let descText := match spec.desc with
    | some d => d
    | none => "undefined"
  descText ++ egText ++ docsText

/-- Display of `spec.choices` inside the not-in-choices message
(JS joins array elements with commas). -/
def choicesDisplay (xs : List JSVal) : String :=
  String.intercalate "," (xs.map jsToDisplay)

/-- src/index.js `validateVar`: parse the raw value, enforce `choices`
(membership checked before the null test, `TypeError` for a truthy
non-array), then reject a `== null` (null or undefined) parse result. -/
def validateVar (spec : Spec) (name : String) (rawValue : JSVal) :
    Except JSError JSVal :=
  match spec.parse? with
  | none => .error (.envError ("Invalid spec for \"" ++ name ++ "\""))
  | some p =>
    match p rawValue with
    | .error e => .error e
    | .ok value =>
      let choicesCheck : Except JSError Unit :=
        match spec.choices? with
        | none => .ok ()
        | some .notArray =>
            .error (.typeError
              ("\"choices\" must be an array (in spec for \"" ++ name ++ "\")"))
        | some (.arr xs) =>
            if value ∈ xs then .ok ()
            else .error (.envError
              ("Value \"" ++ jsToDisplay value ++ "\" not in choices [" ++
                choicesDisplay xs ++ "]"))
      match choicesCheck with
      | .error e => .error e
      | .ok _ =>
        if value = .null ∨ value = JSVal.undef then
          .error (.envError ("Invalid value for env var \"" ++ name ++ "\""))
        else .ok value

/-- src/index.js `getDevDefault`: the dev default value when the spec has the
own property `devDefault` and `env.NODE_ENV !== 'production'`, else
`undefined`. -/
def getDevDefault (spec : Spec) (env : EnvMap) : JSVal :=
  let isNotProd := readJS env "NODE_ENV" ≠ JSVal.str "production"
  let hasDevDefault := spec.devDefault?.isSome
  if hasDevDefault ∧ isNotProd then spec.devDefault?.getD JSVal.undef else JSVal.undef

/-- src/index.js `getRawValue`: the environment entry when defined, else the
dev default when that is defined, else the plain `spec.default` read. -/
def getRawValue (spec : Spec) (env : EnvMap) (specKey : String) : JSVal :=
  let devDefault := getDevDefault spec env
  if readJS env specKey = JSVal.undef then
    if devDefault = JSVal.undef then spec.default?.getD JSVal.undef else devDefault
  else readJS env specKey

/-- src/index.js `assertTestOnlySymbol`. -/
def assertTestOnlySymbol (spec : Spec) (rawValue : JSVal) :
    Except JSError Unit :=
  if rawValue = .testOnlySym then
    .error (.envMissingError (formatSpecDescription spec))
  else .ok ()

/-- src/index.js `usingFalsyDefault`. -/
def usingFalsyDefault (spec : Spec) (env : EnvMap) (rawValue : JSVal) : Bool :=
  let isNotProd := readJS env "NODE_ENV" ≠ JSVal.str "production"
  let hasDevDefault := spec.devDefault?.isSome
  let hasDefault := spec.default?.isSome
  if hasDefault ∧ spec.default?.getD JSVal.undef = rawValue then true
  else if hasDevDefault ∧ isNotProd ∧ spec.devDefault?.getD JSVal.undef = rawValue then
    true
  else false

/-- src/index.js `validate`. -/
def validate (spec : Spec) (specKey : String) (rawValue : JSVal)
    (env : EnvMap) : Except JSError JSVal :=
  if rawValue = JSVal.undef then
    if !(usingFalsyDefault spec env rawValue) then
      .error (.envMissingError (formatSpecDescription spec))
    else .ok JSVal.undef
  else validateVar spec specKey rawValue

/-- A user-supplied spec map: key names to `Spec`s, in insertion order. -/
abbrev SpecMap := List (String × Spec)

/-- `Object.keys(specs)` (insertion order). -/
def specKeys (specs : SpecMap) : List String :=
  specs.map Prod.fst

/-- `specs[specKey]`.  The keys the engine looks up always come from
`Object.keys(specs)` or the defer queue filled from it, so the default is
never reached from `cleanEnv`. -/
def getSpec (specs : SpecMap) (k : String) : Spec :=
  (lookupKey specs k).getD {}

/-- The mutable per-call state of one `validateSpecs` invocation: the shared
`output` object, this call's fresh `errors` object, the shared `deferKeys`
array and the call-local `hasDeferments` flag. -/
structure PassState where
  output : EnvMap
  errors : List (String × JSError)
  deferKeys : List String
  hasDeferments : Bool
  deriving Repr

/-- The try-block of the `forEach` body in src/index.js `validateSpecs`:
`assertTestOnlySymbol` followed by `validate`, as a value-or-thrown-error. -/
def keyOutcome (specs : SpecMap) (env : EnvMap) (specKey : String) :
    Except JSError JSVal :=
  let spec := getSpec specs specKey
  let rawValue := getRawValue spec env specKey
  match assertTestOnlySymbol spec rawValue with
  | .error e => .error e
  | .ok _ => validate spec specKey rawValue env

/-- One iteration of the `forEach` in src/index.js `validateSpecs`: defer a
`requiredWhen` key in a non-defer pass, otherwise validate and either write
the output, swallow the failure when `requiredWhen(output)` is falsy,
rethrow when `options.reporter === null`, or record the error. -/
def processKey (specs : SpecMap) (env : EnvMap) (reporterIsNull : Bool)
    (shouldProcessDeferments : Bool) (st : PassState) (specKey : String) :
    Except JSError PassState :=
  let spec := getSpec specs specKey
  let hasRequiredWhen := spec.requiredWhen?.isSome
  if !shouldProcessDeferments && hasRequiredWhen then
    .ok { st with deferKeys := st.deferKeys ++ [specKey], hasDeferments := true }
  else
    let rawValue := getRawValue spec env specKey
    let attempt : Except JSError JSVal :=
      match assertTestOnlySymbol spec rawValue with
      | .error e => .error e
      | .ok _ => validate spec specKey rawValue env
    match attempt with
    | .ok value => .ok { st with output := setKey st.output specKey value }
    | .error error =>
      match spec.requiredWhen? with
      | some requiredWhen =>
        if !(requiredWhen st.output) then .ok st
        else if reporterIsNull then .error error
        else .ok { st with errors := setKey st.errors specKey error }
      | none =>
        if reporterIsNull then .error error
        else .ok { st with errors := setKey st.errors specKey error }

/-- The whole `forEach` over `keysToValidate`: a thrown error (null-reporter
mode) aborts the remaining iterations and propagates. -/
def processKeys (specs : SpecMap) (env : EnvMap) (reporterIsNull : Bool)
    (shouldProcessDeferments : Bool) :
    PassState → List String → Except JSError PassState
  | st, [] => .ok st
  | st, k :: rest =>
    match processKey specs env reporterIsNull shouldProcessDeferments st k with
    | .error e => .error e
    | .ok st' => processKeys specs env reporterIsNull shouldProcessDeferments st' rest

/-- In a defer pass (`shouldProcessDeferments = true`) the defer branch of
`processKey` is unreachable, so the step leaves `hasDeferments` alone. -/
theorem processKey_defer_hasDeferments (specs : SpecMap) (env : EnvMap)
    (rep : Bool) (st st' : PassState) (k : String)
    (h : processKey specs env rep true st k = .ok st') :
    st'.hasDeferments = st.hasDeferments := by
  simp only [processKey, Bool.not_true, Bool.false_and, Bool.false_eq_true,
    if_false] at h
  split at h
  · cases h; rfl
  · split at h
    · split at h
      · cases h; rfl
      · split at h
        · exact Except.noConfusion h
        · cases h; rfl
    · split at h
      · exact Except.noConfusion h
      · cases h; rfl

/-- A whole defer pass leaves `hasDeferments` alone. -/
theorem processKeys_defer_hasDeferments (specs : SpecMap) (env : EnvMap)
    (rep : Bool) :
    ∀ (keys : List String) (st st' : PassState),
      processKeys specs env rep true st keys = .ok st' →
      st'.hasDeferments = st.hasDeferments := by
  intro keys
  induction keys with
  | nil =>
    intro st st' h
    simp only [processKeys] at h
    cases h
    rfl
  | cons k rest ih =>
    intro st st' h
    simp only [processKeys] at h
    cases hpk : processKey specs env rep true st k with
    | error e => rw [hpk] at h; cases h
    | ok st1 =>
      rw [hpk] at h
      exact (ih st1 st' h).trans (processKey_defer_hasDeferments specs env rep st st1 k hpk)

/-- src/index.js `validateSpecs`.  `keysToValidate` is the defer queue when
it is a non-empty array (reference equality with `deferKeys`, hence
`shouldProcessDeferments`), otherwise `Object.keys(specs)`.  Each call has a
fresh `errors` object; `output` and `deferKeys` are shared through the
recursion.  The recursion is well-founded because a recursive call is made
only when `hasDeferments` was set, which the defer branch alone does, and a
defer pass never sets it (`processKeys_defer_hasDeferments`). -/
def validateSpecs (specs : SpecMap) (env : EnvMap) (reporterIsNull : Bool)
    (deferKeys : List String) (output : EnvMap) :
    Except JSError (EnvMap × List (String × JSError)) :=
  match hst : processKeys specs env reporterIsNull (!deferKeys.isEmpty)
      { output := output, errors := [], deferKeys := deferKeys,
        hasDeferments := false }
      (if !deferKeys.isEmpty then deferKeys else specKeys specs) with
  | .error e => .error e
  | .ok st =>
    if hd : (st.hasDeferments && !st.deferKeys.isEmpty) = true then
      validateSpecs specs env reporterIsNull st.deferKeys st.output
    else .ok (st.output, st.errors)
termination_by (if deferKeys.isEmpty then 1 else 0)
decreasing_by
  have h1 : st.hasDeferments = true := ((Bool.and_eq_true _ _).mp hd).1
  have h2 : st.deferKeys.isEmpty = false := by
    have h2' := ((Bool.and_eq_true _ _).mp hd).2
    simpa using h2'
  have h3 : deferKeys.isEmpty = true := by
    by_contra hc
    have hne : (!deferKeys.isEmpty) = true := by
      cases hh : deferKeys.isEmpty
      · rfl
      · exact absurd hh hc
    rw [hne] at hst
    have hkeep := processKeys_defer_hasDeferments specs env reporterIsNull _ _ _ hst
    rw [h1] at hkeep
    simp at hkeep
  simp [h2, h3]

/-- The explicit two-pass pipeline equal to `validateSpecs` (proved in
`validateSpecs_eq_twoPass`): one pass over the chosen key list, then, when
deferments were queued, one defer pass.  Structurally recursive, so concrete
runs reduce definitionally. -/
def validateSpecsTwoPass (specs : SpecMap) (env : EnvMap)
    (reporterIsNull : Bool) (deferKeys : List String) (output : EnvMap) :
    Except JSError (EnvMap × List (String × JSError)) :=
  match processKeys specs env reporterIsNull (!deferKeys.isEmpty)
      { output := output, errors := [], deferKeys := deferKeys,
        hasDeferments := false }
      (if !deferKeys.isEmpty then deferKeys else specKeys specs) with
  | .error e => .error e
  | .ok st =>
    if (st.hasDeferments && !st.deferKeys.isEmpty) = true then
      match processKeys specs env reporterIsNull true
          { output := st.output, errors := [], deferKeys := st.deferKeys,
            hasDeferments := false }
          st.deferKeys with
      | .error e => .error e
      | .ok st2 => .ok (st2.output, st2.errors)
    else .ok (st.output, st.errors)

/-- The recursive `validateSpecs` is the explicit two-pass pipeline. -/
theorem validateSpecs_eq_twoPass (specs : SpecMap) (env : EnvMap)
    (reporterIsNull : Bool) (deferKeys : List String) (output : EnvMap) :
    validateSpecs specs env reporterIsNull deferKeys output =
      validateSpecsTwoPass specs env reporterIsNull deferKeys output := by
  rw [validateSpecs]
  unfold validateSpecsTwoPass
  split
  case h_1 e heq =>
    rw [heq]
  case h_2 st heq =>
    rw [heq]
    show _ = (if (st.hasDeferments && !st.deferKeys.isEmpty) = true then
        match processKeys specs env reporterIsNull true
            { output := st.output, errors := [], deferKeys := st.deferKeys,
              hasDeferments := false } st.deferKeys with
        | .error e => .error e
        | .ok st2 => .ok (st2.output, st2.errors)
      else .ok (st.output, st.errors))
    by_cases hd : (st.hasDeferments && !st.deferKeys.isEmpty) = true
    · rw [dif_pos hd, if_pos hd, validateSpecs]
      have hne : (!st.deferKeys.isEmpty) = true := ((Bool.and_eq_true _ _).mp hd).2
      rw [hne]
      split
      next e heq2 =>
        simp only [eq_self_iff_true, if_true] at heq2
        rw [heq2]
      next st2 heq2 =>
        simp only [eq_self_iff_true, if_true] at heq2
        rw [heq2]
        have hkeep : st2.hasDeferments = false :=
          processKeys_defer_hasDeferments specs env reporterIsNull _ _ _ heq2
        rw [dif_neg (by simp [hkeep])]
    · rw [dif_neg hd, if_neg hd]

/-- `extend` from src/index.js: `Object.assign({}, x, y)`.  Keys of `x` keep
their positions (values overridden by `y` where present); new keys of `y`
are appended in order. -/
def extend {α : Type} (x y : List (String × α)) : List (String × α) :=
  x.map (fun p => match lookupKey y p.1 with
    | some v => (p.1, v)
    | none => p) ++
    y.filter (fun q => !(x.any (fun p => (p.1 = q.1 : Bool))))

/-- The dotenv file as seen by `extendWithDotEnv`: absent (ENOENT) or parsed
key/value pairs.  File reading itself is I/O outside the engine; a
non-ENOENT read failure (which the source rethrows) is not modelled. -/
inductive DotEnvFile where
  | missing
  | present (parsed : EnvMap)

/-- src/index.js `extendWithDotEnv`: a missing file returns the input object
itself (aliased!); otherwise a fresh merge with the input taking
precedence. -/
def extendWithDotEnv (inputEnv : EnvMap) (dotEnvFile : DotEnvFile) : EnvMap :=
  match dotEnvFile with
  | .missing => inputEnv
  | .present parsed => extend parsed inputEnv

/-- Result of `getEnv`: the working env, plus the state of the caller's
`inputEnv` object after the call.  `env` aliases `inputEnv` exactly when no
dotenv merge produced a fresh object (`options.dotEnvPath === null`, or the
dotenv file was missing), so the `delete env.NODE_ENV` then mutates the
caller's object. -/
structure GetEnvResult where
  env : EnvMap
  inputEnvAfter : EnvMap

/-- src/index.js `getEnv`.  `delete env.NODE_ENV` fires when `env.NODE_ENV`
is falsy or the empty string. -/
def getEnv (inputEnv : EnvMap) (dotEnvPathIsNull : Bool)
    (dotEnvFile : DotEnvFile) : GetEnvResult :=
  let env :=
    if dotEnvPathIsNull then inputEnv else extendWithDotEnv inputEnv dotEnvFile
  let aliased :=
    dotEnvPathIsNull ||
      (match dotEnvFile with | .missing => true | .present _ => false)
  let nodeEnvFalsy :=
    !(jsTruthy (readJS env "NODE_ENV")) || (readJS env "NODE_ENV" = .str "" : Bool)
  { env := if nodeEnvFalsy then eraseKey env "NODE_ENV" else env,
    inputEnvAfter :=
      if aliased && nodeEnvFalsy then eraseKey inputEnv "NODE_ENV" else inputEnv }

/-- Modelled from the spec: the `str` validator comes from lib/validators,
which is not under src/.  Per the spec the built-in parsers are leaf
coercions ("parse: function (rawString) -> validatedValue, fails by raising
a validation error for malformed input"); `str` accepts string input and
returns it unchanged, rejecting non-strings. -/
def strParse : JSVal → Except JSError JSVal
  | .str s => .ok (.str s)
  | v => .error (.envError ("Invalid string input: \"" ++ jsToDisplay v ++ "\""))

/-- The implicit NODE_ENV spec merged ahead of user specs in `cleanEnv`:
`str({ choices: ['development', 'test', 'production'], default: 'production' })`. -/
def nodeEnvSpec : Spec :=
  { parse? := some strParse,
    choices? := some (.arr [.str "development", .str "test", .str "production"]),
    default? := some (.str "production") }

/-- The five derived mode flags attached by `Object.defineProperties`. -/
structure ModeFlags where
  isDevelopment : Bool
  isDev : Bool
  isProduction : Bool
  isProd : Bool
  isTest : Bool
  deriving DecidableEq, Repr

/-- The final output object: its ordinary properties, the defined flag
properties (`none` before `Object.defineProperties` runs), whether the flag
properties are writable (`defineProperties` with only `value` makes them
non-writable), and whether the object has been frozen. -/
structure CleanObj where
  props : EnvMap
  flags : Option ModeFlags
  flagsWritable : Bool
  frozen : Bool

/-- The `cleanEnv` options the engine inspects.  `reporterIsNull` is
`options.reporter === null` (throw-on-first-error mode); a supplied
reporter function is external and only its invocation is recorded.
`transformer` is `options.transformer` when truthy. -/
structure CleanOptions where
  reporterIsNull : Bool := false
  strict : Bool := false
  dotEnvPathIsNull : Bool := false
  transformer : Option (CleanObj → CleanObj) := none

/-- Modelled from the spec: lib/strictProxy is not under src/.  The spec
scopes it to restricting undeclared-key access on the final object ("access
to undeclared keys must be guarded by the external strict-access
collaborator"), which this abstraction does not observe, so it is the
identity on the abstracted object. -/
def strictProxy (obj : CleanObj) (_env : EnvMap) : CleanObj :=
  obj

/-- One complete `cleanEnv` call: its return value or thrown error, the
calls made to the reporter (`{ errors, env: finalOutput }` pairs), and the
caller's input object after the call. -/
structure CleanRun where
  result : Except JSError CleanObj
  reporterCalls : List (List (String × JSError) × CleanObj)
  inputEnvAfter : EnvMap

/-- src/index.js `cleanEnv`.  The dotenv file contents stand in for the
out-of-scope file read.  The reporter (custom or the default from
lib/reporter) is external; the engine calls it exactly once on the
non-throwing path, after the transformer and before the strict proxy. -/
def cleanEnv (inputEnv : EnvMap) (userSpecs : SpecMap) (options : CleanOptions)
    (dotEnvFile : DotEnvFile) : CleanRun :=
  let g := getEnv inputEnv options.dotEnvPathIsNull dotEnvFile
  let env := g.env
  let specs := extend [("NODE_ENV", nodeEnvSpec)] userSpecs
  match validateSpecs specs env options.reporterIsNull [] [] with
  | .error e =>
    { result := .error e, reporterCalls := [], inputEnvAfter := g.inputEnvAfter }
  | .ok (output, errors) =>
    let finalOutput : CleanObj :=
      { props := if options.strict then output else extend env output,
        flags := none, flagsWritable := true, frozen := false }
    let finalOutput := { finalOutput with
      flags := some
        { isDevelopment := (readJS output "NODE_ENV" = .str "development" : Bool),
          isDev := (readJS output "NODE_ENV" = .str "development" : Bool),
          isProduction := (readJS output "NODE_ENV" = .str "production" : Bool),
          isProd := (readJS output "NODE_ENV" = .str "production" : Bool),
          isTest := (readJS output "NODE_ENV" = .str "test" : Bool) },
      flagsWritable := false }
    let finalOutput := match options.transformer with
      | some transformer => transformer finalOutput
      | none => finalOutput
    let reporterCalls := [(errors, finalOutput)]
    let finalOutput :=
      if options.strict then strictProxy finalOutput env else finalOutput
    let finalOutput := { finalOutput with frozen := true }
    { result := .ok finalOutput, reporterCalls := reporterCalls,
      inputEnvAfter := g.inputEnvAfter }

theorem lookupKey_setKey_self {α : Type} (m : List (String × α)) (k : String)
    (v : α) : lookupKey (setKey m k v) k = some v := by
  induction m with
  | nil => simp [setKey, lookupKey]
  | cons p rest ih =>
    by_cases h : p.1 = k
    · simp [setKey, h, lookupKey]
    · simp [setKey, h, lookupKey, ih]

theorem lookupKey_setKey_ne {α : Type} (m : List (String × α)) (k j : String)
    (v : α) (h : j ≠ k) : lookupKey (setKey m j v) k = lookupKey m k := by
  induction m with
  | nil => simp [setKey, lookupKey, h]
  | cons p rest ih =>
    by_cases hp : p.1 = j
    · simp [setKey, hp, lookupKey, h]
    · simp [setKey, hp, lookupKey, ih]

/-- True exactly when the spec for `k` carries a `requiredWhen` function. -/
def isDeferredKey (specs : SpecMap) (k : String) : Bool :=
  (getSpec specs k).requiredWhen?.isSome

/-- The keys deferred to the second pass, in spec-map order. -/
def deferredKeysOf (specs : SpecMap) : List String :=
  (specKeys specs).filter (isDeferredKey specs)

/-- The keys processed in the first pass, in spec-map order. -/
def immediateKeysOf (specs : SpecMap) : List String :=
  (specKeys specs).filter (fun k => !(isDeferredKey specs k))

/-- A key without `requiredWhen` is processed the same way in either pass:
validate, then write the output or (record/rethrow) the error. -/
theorem processKey_imm (specs : SpecMap) (env : EnvMap) (rep spd : Bool)
    (st : PassState) (k : String)
    (hreq : (getSpec specs k).requiredWhen? = none) :
    processKey specs env rep spd st k =
      match keyOutcome specs env k with
      | .ok v => .ok { st with output := setKey st.output k v }
      | .error e =>
        if rep then .error e
        else .ok { st with errors := setKey st.errors k e } := by
  cases h : keyOutcome specs env k with
  | ok v =>
    simp only [keyOutcome] at h
    simp only [processKey, hreq, Option.isSome_none, Bool.and_false,
      Bool.false_eq_true, if_false, h]
  | error e =>
    simp only [keyOutcome] at h
    simp only [processKey, hreq, Option.isSome_none, Bool.and_false,
      Bool.false_eq_true, if_false, h]

/-- In the first pass a `requiredWhen` key is only queued. -/
theorem processKey_defer1 (specs : SpecMap) (env : EnvMap) (rep : Bool)
    (st : PassState) (k : String) (rw : EnvMap → Bool)
    (hreq : (getSpec specs k).requiredWhen? = some rw) :
    processKey specs env rep false st k =
      .ok { st with deferKeys := st.deferKeys ++ [k], hasDeferments := true } := by
  simp [processKey, hreq]

/-- In the defer pass a `requiredWhen` key is validated; on failure the
predicate applied to the output accumulated so far decides whether the
error is swallowed, rethrown (null reporter) or recorded. -/
theorem processKey_defer2 (specs : SpecMap) (env : EnvMap) (rep : Bool)
    (st : PassState) (k : String) (rw : EnvMap → Bool)
    (hreq : (getSpec specs k).requiredWhen? = some rw) :
    processKey specs env rep true st k =
      match keyOutcome specs env k with
      | .ok v => .ok { st with output := setKey st.output k v }
      | .error e =>
        if !(rw st.output) then .ok st
        else if rep then .error e
        else .ok { st with errors := setKey st.errors k e } := by
  cases h : keyOutcome specs env k with
  | ok v =>
    simp only [keyOutcome] at h
    simp only [processKey, hreq, Bool.not_true, Bool.false_and,
      Bool.false_eq_true, if_false, h]
  | error e =>
    simp only [keyOutcome] at h
    simp only [processKey, hreq, Bool.not_true, Bool.false_and,
      Bool.false_eq_true, if_false, h]

/-- A successful `processKey` step touches `output` and `errors` only at its
own key. -/
theorem processKey_writes_only_own_key (specs : SpecMap) (env : EnvMap)
    (rep spd : Bool) (st st' : PassState) (j : String)
    (h : processKey specs env rep spd st j = .ok st') :
    (st'.output = st.output ∨ ∃ v, st'.output = setKey st.output j v) ∧
      (st'.errors = st.errors ∨ ∃ e, st'.errors = setKey st.errors j e) := by
  simp only [processKey] at h
  split at h
  · cases h
    exact ⟨Or.inl rfl, Or.inl rfl⟩
  · split at h
    · cases h
      exact ⟨Or.inr ⟨_, rfl⟩, Or.inl rfl⟩
    · split at h
      · split at h
        · cases h
          exact ⟨Or.inl rfl, Or.inl rfl⟩
        · split at h
          · exact Except.noConfusion h
          · cases h
            exact ⟨Or.inl rfl, Or.inr ⟨_, rfl⟩⟩
      · split at h
        · exact Except.noConfusion h
        · cases h
          exact ⟨Or.inl rfl, Or.inr ⟨_, rfl⟩⟩

/-- Processing a list avoiding `k` leaves `output` and `errors` unchanged at
`k`. -/
theorem processKeys_preserves_other_keys (specs : SpecMap) (env : EnvMap)
    (rep spd : Bool) (k : String) :
    ∀ (ks : List String) (st st' : PassState),
      processKeys specs env rep spd st ks = .ok st' → k ∉ ks →
      lookupKey st'.output k = lookupKey st.output k ∧
        lookupKey st'.errors k = lookupKey st.errors k := by
  intro ks
  induction ks with
  | nil =>
    intro st st' h _
    simp only [processKeys] at h
    cases h
    exact ⟨rfl, rfl⟩
  | cons j rest ih =>
    intro st st' h hnot
    have hjk : j ≠ k := fun hh => hnot (hh ▸ List.mem_cons_self j rest)
    have hrest : k ∉ rest := fun hh => hnot (List.mem_cons_of_mem j hh)
    simp only [processKeys] at h
    cases hpk : processKey specs env rep spd st j with
    | error e => rw [hpk] at h; exact Except.noConfusion h
    | ok st1 =>
      rw [hpk] at h
      have hw := processKey_writes_only_own_key specs env rep spd st st1 j hpk
      have hrec := ih st1 st' h hrest
      constructor
      · rw [hrec.1]
        rcases hw.1 with ho | ⟨v, ho⟩
        · rw [ho]
        · rw [ho, lookupKey_setKey_ne _ _ _ _ hjk]
      · rw [hrec.2]
        rcases hw.2 with he | ⟨e, he⟩
        · rw [he]
        · rw [he, lookupKey_setKey_ne _ _ _ _ hjk]

/-- First pass, defer bookkeeping: the queue receives exactly the
`requiredWhen` keys in order, and `hasDeferments` records whether any were
queued. -/
theorem processKeys_phase1_defer_tracking (specs : SpecMap) (env : EnvMap)
    (rep : Bool) :
    ∀ (ks : List String) (st st' : PassState),
      processKeys specs env rep false st ks = .ok st' →
      st'.deferKeys = st.deferKeys ++ ks.filter (isDeferredKey specs) ∧
        st'.hasDeferments =
          (st.hasDeferments || !(ks.filter (isDeferredKey specs)).isEmpty) := by
  intro ks
  induction ks with
  | nil =>
    intro st st' h
    simp only [processKeys] at h
    cases h
    simp
  | cons j rest ih =>
    intro st st' h
    simp only [processKeys] at h
    cases hreq : (getSpec specs j).requiredWhen? with
    | some rw =>
      have hdj : isDeferredKey specs j = true := by
        simp [isDeferredKey, hreq]
      rw [processKey_defer1 specs env rep st j rw hreq] at h
      have hrec := ih _ _ h
      simp only [List.filter_cons, hdj, if_true] at *
      refine ⟨?_, ?_⟩
      · rw [hrec.1]
        simp
      · rw [hrec.2]
        simp
    | none =>
      have hdj : isDeferredKey specs j = false := by
        simp [isDeferredKey, hreq]
      rw [processKey_imm specs env rep false st j hreq] at h
      simp only [List.filter_cons, hdj, Bool.false_eq_true, if_false]
      cases hout : keyOutcome specs env j with
      | ok v =>
        simp only [hout] at h
        have hrec := ih { st with output := setKey st.output j v } st' h
        simpa using hrec
      | error e =>
        simp only [hout] at h
        cases rep with
        | true => simp at h
        | false =>
          simp only [Bool.false_eq_true, if_false] at h
          have hrec := ih { st with errors := setKey st.errors j e } st' h
          simpa using hrec

/-- First pass: a `requiredWhen` key is neither written to the output nor to
the error map. -/
theorem processKeys_phase1_skips_deferred (specs : SpecMap) (env : EnvMap)
    (rep : Bool) (k : String) (rw : EnvMap → Bool)
    (hreq : (getSpec specs k).requiredWhen? = some rw) :
    ∀ (ks : List String) (st st' : PassState),
      processKeys specs env rep false st ks = .ok st' →
      lookupKey st'.output k = lookupKey st.output k ∧
        lookupKey st'.errors k = lookupKey st.errors k := by
  intro ks
  induction ks with
  | nil =>
    intro st st' h
    simp only [processKeys] at h
    cases h
    exact ⟨rfl, rfl⟩
  | cons j rest ih =>
    intro st st' h
    simp only [processKeys] at h
    cases hpk : processKey specs env rep false st j with
    | error e => rw [hpk] at h; exact Except.noConfusion h
    | ok st1 =>
      rw [hpk] at h
      have hrec := ih st1 st' h
      by_cases hjk : j = k
      · subst hjk
        rw [processKey_defer1 specs env rep st j rw hreq] at hpk
        cases hpk
        exact hrec
      · have hw := processKey_writes_only_own_key specs env rep false st st1 j hpk
        constructor
        · rw [hrec.1]
          rcases hw.1 with ho | ⟨v, ho⟩
          · rw [ho]
          · rw [ho, lookupKey_setKey_ne _ _ _ _ hjk]
        · rw [hrec.2]
          rcases hw.2 with he | ⟨e, he⟩
          · rw [he]
          · rw [he, lookupKey_setKey_ne _ _ _ _ hjk]

/-- First pass: a key without `requiredWhen` whose validation succeeds has
its validated value in the output when the pass ends. -/
theorem processKeys_phase1_imm_success (specs : SpecMap) (env : EnvMap)
    (rep : Bool) (k : String) (v : JSVal)
    (hreq : (getSpec specs k).requiredWhen? = none)
    (hout : keyOutcome specs env k = .ok v) :
    ∀ (ks : List String) (st st' : PassState), ks.Nodup →
      processKeys specs env rep false st ks = .ok st' → k ∈ ks →
      lookupKey st'.output k = some v := by
  intro ks
  induction ks with
  | nil =>
    intro st st' _ _ hmem
    exact absurd hmem (List.not_mem_nil k)
  | cons j rest ih =>
    intro st st' hnd h hmem
    simp only [processKeys] at h
    by_cases hjk : j = k
    · subst hjk
      rw [processKey_imm specs env rep false st j hreq, hout] at h
      have hrest : j ∉ rest := (List.nodup_cons.mp hnd).1
      have hpres := processKeys_preserves_other_keys specs env rep false j rest _ _ h hrest
      rw [hpres.1, lookupKey_setKey_self]
    · have hmem' : k ∈ rest := by
        cases List.mem_cons.mp hmem with
        | inl hh => exact absurd hh.symm hjk
        | inr hh => exact hh
      cases hpk : processKey specs env rep false st j with
      | error e => rw [hpk] at h; exact Except.noConfusion h
      | ok st1 =>
        rw [hpk] at h
        exact ih st1 st' (List.nodup_cons.mp hnd).2 h hmem'

/-- Top-level shape of a `cleanEnv`-style call (`deferKeys` and `output`
start empty): first pass over `Object.keys(specs)`, then the defer pass when
deferments were queued. -/
theorem validateSpecs_top (specs : SpecMap) (env : EnvMap) (rep : Bool) :
    validateSpecs specs env rep [] [] =
      match processKeys specs env rep false
          { output := [], errors := [], deferKeys := [], hasDeferments := false }
          (specKeys specs) with
      | .error e => .error e
      | .ok st =>
        if (st.hasDeferments && !st.deferKeys.isEmpty) = true then
          match processKeys specs env rep true
              { output := st.output, errors := [], deferKeys := st.deferKeys,
                hasDeferments := false } st.deferKeys with
          | .error e => .error e
          | .ok st2 => .ok (st2.output, st2.errors)
        else .ok (st.output, st.errors)
    := by
  rw [validateSpecs_eq_twoPass]
  unfold validateSpecsTwoPass
  simp only [List.isEmpty_nil, Bool.not_true, Bool.false_eq_true, if_false]

/-- `Bool` version of the choices gate inside `validateVar`, for stating
hypotheses: absent choices allow anything, an array allows its members, a
truthy non-array allows nothing. -/
def choicesAllow (spec : Spec) (v : JSVal) : Bool :=
  match spec.choices? with
  | none => true
  | some (.arr xs) => v ∈ xs
  | some .notArray => false

/-- `validateVar` succeeds exactly on a parse result that passes the choices
gate and is neither null nor undefined, returning it. -/
theorem validateVar_ok (spec : Spec) (k : String) (raw w : JSVal)
    (p : JSVal → Except JSError JSVal)
    (hp : spec.parse? = some p) (hpr : p raw = .ok w)
    (hch : choicesAllow spec w = true)
    (hn : w ≠ .null) (hu : w ≠ JSVal.undef) :
    validateVar spec k raw = .ok w := by
  cases hc : spec.choices? with
  | none => simp [validateVar, hp, hpr, hn, hu, hc]
  | some c =>
    cases c with
    | notArray => simp [choicesAllow, hc] at hch
    | arr xs =>
      have hmem : w ∈ xs := by
        simpa [choicesAllow, hc] using hch
      simp [validateVar, hp, hpr, hn, hu, hc, hmem]

/-- A spec without a parse function makes `validateVar` throw the
configuration `EnvError`. -/
theorem validateVar_invalid_spec (spec : Spec) (k : String) (raw : JSVal)
    (hp : spec.parse? = none) :
    validateVar spec k raw =
      .error (.envError ("Invalid spec for \"" ++ k ++ "\"")) := by
  simp [validateVar, hp]

/-- A truthy non-array `choices` makes `validateVar` throw the `TypeError`
once parsing succeeded. -/
theorem validateVar_choices_not_array (spec : Spec) (k : String) (raw w : JSVal)
    (p : JSVal → Except JSError JSVal)
    (hp : spec.parse? = some p) (hpr : p raw = .ok w)
    (hc : spec.choices? = some .notArray) :
    validateVar spec k raw =
      .error (.typeError
        ("\"choices\" must be an array (in spec for \"" ++ k ++ "\")")) := by
  simp [validateVar, hp, hpr, hc]

/-- `keyOutcome` through its components, when the raw value is not the
test-only sentinel. -/
theorem keyOutcome_eq_validate (specs : SpecMap) (env : EnvMap) (k : String)
    (spec : Spec) (hg : getSpec specs k = spec)
    (hsym : getRawValue spec env k ≠ .testOnlySym) :
    keyOutcome specs env k = validate spec k (getRawValue spec env k) env := by
  simp [keyOutcome, hg, assertTestOnlySymbol, hsym]

/-- An undefined raw value with no falsy default in use yields the
missing-value error. -/
theorem keyOutcome_missing (specs : SpecMap) (env : EnvMap) (k : String)
    (spec : Spec) (hg : getSpec specs k = spec)
    (hraw : getRawValue spec env k = JSVal.undef)
    (hfd : usingFalsyDefault spec env JSVal.undef = false) :
    keyOutcome specs env k =
      .error (.envMissingError (formatSpecDescription spec)) := by
  rw [keyOutcome_eq_validate specs env k spec hg (by rw [hraw]; intro hh; exact JSVal.noConfusion hh), hraw]
  simp [validate, hfd]

/-- Single-key spec map, key without `requiredWhen`: the run is exactly one
validation, recorded or rethrown per reporter mode. -/
theorem validateSpecs_single_imm (spec : Spec) (env : EnvMap) (rep : Bool)
    (k : String) (hreq : spec.requiredWhen? = none) :
    validateSpecs [(k, spec)] env rep [] [] =
      match keyOutcome [(k, spec)] env k with
      | .ok v => .ok ([(k, v)], [])
      | .error e => if rep then .error e else .ok ([], [(k, e)]) := by
  have hg : getSpec [(k, spec)] k = spec := by simp [getSpec, lookupKey]
  have hreq' : (getSpec [(k, spec)] k).requiredWhen? = none := by rw [hg]; exact hreq
  rw [validateSpecs_top]
  simp only [specKeys, List.map_cons, List.map_nil, processKeys,
    processKey_imm [(k, spec)] env rep false _ k hreq']
  cases hout : keyOutcome [(k, spec)] env k with
  | ok v => simp [hout, processKeys, setKey]
  | error e =>
    cases rep with
    | true => simp [hout]
    | false => simp [hout, processKeys, setKey]

/-- Single-key spec map, key with `requiredWhen`: deferred in the first
pass, then validated once against the empty partial output. -/
theorem validateSpecs_single_defer (spec : Spec) (env : EnvMap) (rep : Bool)
    (k : String) (rw : EnvMap → Bool) (hreq : spec.requiredWhen? = some rw) :
    validateSpecs [(k, spec)] env rep [] [] =
      match keyOutcome [(k, spec)] env k with
      | .ok v => .ok ([(k, v)], [])
      | .error e =>
        if !(rw []) then .ok ([], [])
        else if rep then .error e
        else .ok ([], [(k, e)]) := by
  have hg : getSpec [(k, spec)] k = spec := by simp [getSpec, lookupKey]
  have hreq' : (getSpec [(k, spec)] k).requiredWhen? = some rw := by
    rw [hg]; exact hreq
  rw [validateSpecs_top]
  simp only [specKeys, List.map_cons, List.map_nil, processKeys,
    processKey_defer1 [(k, spec)] env rep _ k rw hreq']
  simp only [processKeys, processKey_defer2 [(k, spec)] env rep _ k rw hreq']
  cases hout : keyOutcome [(k, spec)] env k with
  | ok v => simp [hout, processKeys, setKey]
  | error e =>
    cases hrw : rw [] with
    | true =>
      cases rep with
      | true => simp [hout, hrw]
      | false => simp [hout, hrw, processKeys, setKey]
    | false => simp [hout, hrw, processKeys]

/-- C6 counterexample: a spec whose `devDefault` own-property is explicitly
`undefined` alongside `default: "d"`, with no environment entry and a
non-production mode.  The claim says the resolved raw value is the
devDefault (`undefined`); the code resolves the plain default `"d"`,
because `getRawValue` cannot tell `getDevDefault`'s `undefined`-valued
devDefault apart from an absent one. -/
theorem c6_counterexample :
    (({ devDefault? := some JSVal.undef, default? := some (.str "d") } : Spec).devDefault?
        = some JSVal.undef) ∧
    readJS [] "K" = JSVal.undef ∧
    readJS [] "NODE_ENV" ≠ JSVal.str "production" ∧
    getRawValue { devDefault? := some JSVal.undef, default? := some (.str "d") } [] "K"
      = JSVal.str "d" ∧
    JSVal.str "d" ≠ JSVal.undef := by
  refine ⟨rfl, rfl, by decide, by decide, by decide⟩

/-- C6 (amended): with no environment entry, a devDefault own-property whose
value is *defined* is used whenever the mode is not "production" (including
explicitly falsy values such as `false`, `0`, `""`, `null`); a devDefault
whose value is `undefined` is indistinguishable from an absent one, so the
plain default applies; under mode "production" the plain default applies
even if a devDefault exists, and likewise when no devDefault is declared. -/
theorem c6_amended :
    (∀ (spec : Spec) (env : EnvMap) (k : String) (w : JSVal),
        readJS env k = JSVal.undef → readJS env "NODE_ENV" ≠ .str "production" →
        spec.devDefault? = some w → w ≠ JSVal.undef →
        getRawValue spec env k = w) ∧
    (∀ (spec : Spec) (env : EnvMap) (k : String),
        readJS env k = JSVal.undef → spec.devDefault? = some JSVal.undef →
        getRawValue spec env k = spec.default?.getD JSVal.undef) ∧
    (∀ (spec : Spec) (env : EnvMap) (k : String),
        readJS env k = JSVal.undef → readJS env "NODE_ENV" = .str "production" →
        getRawValue spec env k = spec.default?.getD JSVal.undef) ∧
    (∀ (spec : Spec) (env : EnvMap) (k : String),
        readJS env k = JSVal.undef → spec.devDefault? = none →
        getRawValue spec env k = spec.default?.getD JSVal.undef) := by
  refine ⟨?_, ?_, ?_, ?_⟩
  · intro spec env k w hk hmode hdev hw
    simp [getRawValue, getDevDefault, hk, hmode, hdev, hw]
  · intro spec env k hk hdev
    by_cases hmode : readJS env "NODE_ENV" = JSVal.str "production" <;>
      simp [getRawValue, getDevDefault, hk, hdev, hmode]
  · intro spec env k hk hmode
    simp [getRawValue, getDevDefault, hk, hmode]
  · intro spec env k hk hdev
    simp [getRawValue, getDevDefault, hk, hdev]

/-- Witness for `c6_amended` at concrete inputs (note the falsy-but-defined
devDefault `false` being used, and the `undefined`-valued one being
skipped). -/
theorem c6_amended_witness :
    getRawValue { devDefault? := some (.bool false), default? := some (.str "d") }
        [] "K" = JSVal.bool false ∧
    getRawValue { devDefault? := some JSVal.undef, default? := some (.str "d") }
        [] "K" = JSVal.str "d" ∧
    getRawValue { devDefault? := some (.bool false), default? := some (.str "d") }
        [("NODE_ENV", .str "production")] "K" = JSVal.str "d" ∧
    getRawValue { default? := some (.str "d") } [] "K" = JSVal.str "d" :=
  ⟨c6_amended.1 _ [] "K" _ rfl (by decide) rfl (by decide),
   c6_amended.2.1 _ [] "K" rfl rfl,
   c6_amended.2.2.1 _ [("NODE_ENV", .str "production")] "K" rfl rfl,
   c6_amended.2.2.2 _ [] "K" rfl rfl⟩

/-- C7 counterexample: the key's resolved raw value is `0`, which strictly
equals the declared `default: 0`, yet validation raises an error, because a
non-undefined raw value always goes through the spec's parse function (here
the string validator, which rejects numbers).  The falsy-default exemption
in `validate`/`usingFalsyDefault` applies only to an `undefined` raw
value. -/
theorem c7_counterexample :
    getRawValue { parse? := some strParse, default? := some (.num 0) } [] "K"
      = JSVal.num 0 ∧
    (({ parse? := some strParse, default? := some (.num 0) } : Spec).default?
      = some (JSVal.num 0)) ∧
    validate { parse? := some strParse, default? := some (.num 0) } "K"
        (.num 0) [] =
      .error (.envError "Invalid string input: \"0\"") := by
  refine ⟨by decide, rfl, rfl⟩

/-- C7 (amended): a raw value strictly equal to the declared default is
exempt from validation only when it is `undefined` (then the run succeeds
with an `undefined` output entry); any other raw value equal to the default
— including falsy `0`, `""`, `false` — is validated normally, so the run
raises no error and maps the key to exactly that value provided the parse
function returns its argument on it, any declared choices admit it, and it
is not `null`. -/
theorem c7_amended :
    (∀ (spec : Spec) (env : EnvMap) (k : String) (rep : Bool),
        getRawValue spec env k = JSVal.undef → spec.default? = some JSVal.undef →
        spec.requiredWhen? = none →
        validateSpecs [(k, spec)] env rep [] [] = .ok ([(k, JSVal.undef)], [])) ∧
    (∀ (spec : Spec) (env : EnvMap) (k : String) (rep : Bool) (raw : JSVal)
        (p : JSVal → Except JSError JSVal),
        getRawValue spec env k = raw → spec.default? = some raw →
        raw ≠ JSVal.undef → raw ≠ .null → raw ≠ .testOnlySym →
        spec.requiredWhen? = none → spec.parse? = some p → p raw = .ok raw →
        choicesAllow spec raw = true →
        validateSpecs [(k, spec)] env rep [] [] = .ok ([(k, raw)], [])) := by
  constructor
  · intro spec env k rep hraw hdef hreq
    have hg : getSpec [(k, spec)] k = spec := by simp [getSpec, lookupKey]
    have hfd : usingFalsyDefault spec env JSVal.undef = true := by
      simp [usingFalsyDefault, hdef]
    have hout : keyOutcome [(k, spec)] env k = .ok JSVal.undef := by
      rw [keyOutcome_eq_validate [(k, spec)] env k spec hg
        (by rw [hraw]; intro hh; exact JSVal.noConfusion hh), hraw]
      simp [validate, hfd]
    rw [validateSpecs_single_imm spec env rep k hreq, hout]
  · intro spec env k rep raw p hraw hdef hundef hnull hsym hreq hp hpr hch
    have hg : getSpec [(k, spec)] k = spec := by simp [getSpec, lookupKey]
    have hout : keyOutcome [(k, spec)] env k = .ok raw := by
      rw [keyOutcome_eq_validate [(k, spec)] env k spec hg (by rw [hraw]; exact hsym),
        hraw]
      rw [validate, if_neg hundef]
      exact validateVar_ok spec k raw raw p hp hpr hch hnull hundef
    rw [validateSpecs_single_imm spec env rep k hreq, hout]

/-- Witness for `c7_amended`: an explicitly `undefined` default in use, and
a falsy default `false` flowing through the `bool`-style parse unchanged. -/
theorem c7_amended_witness :
    validateSpecs [("K", { parse? := some strParse, default? := some JSVal.undef })]
        [] false [] [] = .ok ([("K", JSVal.undef)], []) ∧
    validateSpecs
        [("K", { parse? := some (fun v => Except.ok v),
                 default? := some (.bool false) })] [] false [] [] =
      .ok ([("K", JSVal.bool false)], []) :=
  ⟨c7_amended.1 _ [] "K" false rfl rfl rfl,
   c7_amended.2 _ [] "K" false (.bool false) _ rfl rfl (by decide) (by decide)
     (by decide) rfl rfl rfl rfl⟩

/-- C2 counterexample: a key whose spec has no parse function (the
malformed-Spec configuration error, as `validateVar` shows) together with a
`requiredWhen` predicate evaluating false, under a null reporter.  The
claim says the configuration error is always thrown immediately to the
caller regardless of `requiredWhen` and the reporter option; the run
instead returns normally with an empty error map — the error was swallowed
by the `requiredWhen` guard before the null-reporter rethrow was even
consulted. -/
theorem c2_counterexample :
    validateVar { parse? := none, requiredWhen? := some (fun _ => false) } "K"
        (.str "x") = .error (.envError "Invalid spec for \"K\"") ∧
    validateSpecs [("K", { parse? := none, requiredWhen? := some (fun _ => false) })]
        [("K", JSVal.str "x")] true [] [] = .ok ([], []) := by
  constructor
  · rfl
  · rw [validateSpecs_eq_twoPass]
    rfl

/-- C2 (amended): malformed-Spec configuration errors (missing parse
function, truthy non-array `choices`) are raised inside `validateVar` when
the key's raw value is validated, but they flow through the same per-key
error handling as every other validation error: swallowed when a
`requiredWhen` predicate evaluates false, thrown to the caller only when
the reporter option is null, and otherwise recorded in the aggregated error
map. -/
theorem c2_amended :
    (∀ (spec : Spec) (env : EnvMap) (k : String) (rep : Bool) (rw : EnvMap → Bool),
        spec.parse? = none → spec.requiredWhen? = some rw →
        getRawValue spec env k ≠ JSVal.undef → getRawValue spec env k ≠ .testOnlySym →
        rw [] = false →
        validateSpecs [(k, spec)] env rep [] [] = .ok ([], [])) ∧
    (∀ (spec : Spec) (env : EnvMap) (k : String) (rw : EnvMap → Bool),
        spec.parse? = none → spec.requiredWhen? = some rw →
        getRawValue spec env k ≠ JSVal.undef → getRawValue spec env k ≠ .testOnlySym →
        rw [] = true →
        validateSpecs [(k, spec)] env false [] [] =
          .ok ([], [(k, .envError ("Invalid spec for \"" ++ k ++ "\""))]) ∧
        validateSpecs [(k, spec)] env true [] [] =
          .error (.envError ("Invalid spec for \"" ++ k ++ "\""))) ∧
    (∀ (spec : Spec) (env : EnvMap) (k : String),
        spec.parse? = none → spec.requiredWhen? = none →
        getRawValue spec env k ≠ JSVal.undef → getRawValue spec env k ≠ .testOnlySym →
        validateSpecs [(k, spec)] env false [] [] =
          .ok ([], [(k, .envError ("Invalid spec for \"" ++ k ++ "\""))]) ∧
        validateSpecs [(k, spec)] env true [] [] =
          .error (.envError ("Invalid spec for \"" ++ k ++ "\""))) ∧
    (∀ (spec : Spec) (env : EnvMap) (k : String) (rep : Bool) (rw : EnvMap → Bool)
        (p : JSVal → Except JSError JSVal) (w : JSVal),
        spec.parse? = some p → spec.choices? = some .notArray →
        spec.requiredWhen? = some rw →
        getRawValue spec env k ≠ JSVal.undef → getRawValue spec env k ≠ .testOnlySym →
        p (getRawValue spec env k) = .ok w → rw [] = false →
        validateSpecs [(k, spec)] env rep [] [] = .ok ([], [])) := by
  have hgs : ∀ (k : String) (spec : Spec), getSpec [(k, spec)] k = spec := by
    intro k spec
    simp [getSpec, lookupKey]
  refine ⟨?_, ?_, ?_, ?_⟩
  · intro spec env k rep rw hp hreq hraw hsym hrw
    have hout : keyOutcome [(k, spec)] env k =
        .error (.envError ("Invalid spec for \"" ++ k ++ "\"")) := by
      rw [keyOutcome_eq_validate [(k, spec)] env k spec (hgs k spec) hsym,
        validate, if_neg hraw]
      exact validateVar_invalid_spec spec k _ hp
    rw [validateSpecs_single_defer spec env rep k rw hreq, hout]
    simp [hrw]
  · intro spec env k rw hp hreq hraw hsym hrw
    have hout : keyOutcome [(k, spec)] env k =
        .error (.envError ("Invalid spec for \"" ++ k ++ "\"")) := by
      rw [keyOutcome_eq_validate [(k, spec)] env k spec (hgs k spec) hsym,
        validate, if_neg hraw]
      exact validateVar_invalid_spec spec k _ hp
    constructor
    · rw [validateSpecs_single_defer spec env false k rw hreq, hout]
      simp [hrw]
    · rw [validateSpecs_single_defer spec env true k rw hreq, hout]
      simp [hrw]
  · intro spec env k hp hreq hraw hsym
    have hout : keyOutcome [(k, spec)] env k =
        .error (.envError ("Invalid spec for \"" ++ k ++ "\"")) := by
      rw [keyOutcome_eq_validate [(k, spec)] env k spec (hgs k spec) hsym,
        validate, if_neg hraw]
      exact validateVar_invalid_spec spec k _ hp
    constructor
    · rw [validateSpecs_single_imm spec env false k hreq, hout]
      simp
    · rw [validateSpecs_single_imm spec env true k hreq, hout]
      simp
  · intro spec env k rep rw p w hp hch hreq hraw hsym hpr hrw
    have hout : keyOutcome [(k, spec)] env k =
        .error (.typeError
          ("\"choices\" must be an array (in spec for \"" ++ k ++ "\")")) := by
      rw [keyOutcome_eq_validate [(k, spec)] env k spec (hgs k spec) hsym,
        validate, if_neg hraw]
      exact validateVar_choices_not_array spec k _ w p hp hpr hch
    rw [validateSpecs_single_defer spec env rep k rw hreq, hout]
    simp [hrw]

/-- Witness for `c2_amended` at concrete inputs: a parse-less spec swallowed
under a false `requiredWhen`, recorded/thrown under a true one, recorded/
thrown without `requiredWhen`, and a truthy non-array `choices` swallowed
under a false `requiredWhen`. -/
theorem c2_amended_witness :
    validateSpecs [("K", { parse? := none, requiredWhen? := some (fun _ => false) })]
        [("K", JSVal.str "x")] false [] [] = .ok ([], []) ∧
    validateSpecs [("K", { parse? := none, requiredWhen? := some (fun _ => true) })]
        [("K", JSVal.str "x")] false [] [] =
      .ok ([], [("K", .envError "Invalid spec for \"K\"")]) ∧
    validateSpecs [("K", { parse? := none })] [("K", JSVal.str "x")] true [] [] =
      .error (.envError "Invalid spec for \"K\"") ∧
    validateSpecs
        [("K", { parse? := some strParse, choices? := some .notArray,
                 requiredWhen? := some (fun _ => false) })]
        [("K", JSVal.str "x")] false [] [] = .ok ([], []) :=
  ⟨c2_amended.1 _ [("K", JSVal.str "x")] "K" false _ rfl rfl (by decide)
      (by decide) rfl,
   (c2_amended.2.1 _ [("K", JSVal.str "x")] "K" _ rfl rfl (by decide)
      (by decide) rfl).1,
   (c2_amended.2.2.1 _ [("K", JSVal.str "x")] "K" rfl rfl (by decide)
      (by decide)).2,
   c2_amended.2.2.2
      { parse? := some strParse, choices? := some .notArray,
        requiredWhen? := some (fun _ => false) }
      [("K", JSVal.str "x")] "K" false (fun _ => false) strParse (.str "x")
      rfl rfl rfl (by decide) (by decide) rfl rfl⟩

/-- C10: a deferred key whose raw value validates successfully is written to
the output unconditionally — the conclusion does not depend on the
`requiredWhen` predicate at all (it is only consulted in the catch path),
so a deferred key with a present valid environment value appears in the
output even when `requiredWhen` would evaluate to false. -/
theorem c10_success_ignores_requiredWhen (spec : Spec) (env : EnvMap)
    (rep : Bool) (k : String) (rw : EnvMap → Bool) (v : JSVal)
    (hreq : spec.requiredWhen? = some rw)
    (hsym : getRawValue spec env k ≠ .testOnlySym)
    (hval : validate spec k (getRawValue spec env k) env = .ok v) :
    validateSpecs [(k, spec)] env rep [] [] = .ok ([(k, v)], []) := by
  have hg : getSpec [(k, spec)] k = spec := by simp [getSpec, lookupKey]
  have hout : keyOutcome [(k, spec)] env k = .ok v := by
    rw [keyOutcome_eq_validate [(k, spec)] env k spec hg hsym]
    exact hval
  rw [validateSpecs_single_defer spec env rep k rw hreq, hout]

/-- Witness for `c10_success_ignores_requiredWhen`: a valid value under a
constantly-false `requiredWhen` still lands in the output. -/
theorem c10_witness :
    validateSpecs
        [("K", { parse? := some strParse, requiredWhen? := some (fun _ => false) })]
        [("K", JSVal.str "x")] false [] [] = .ok ([("K", JSVal.str "x")], []) :=
  c10_success_ignores_requiredWhen _ [("K", JSVal.str "x")] false "K" _
    (.str "x") rfl (by decide) rfl

/-- C3: a deferred key (spec with `requiredWhen`, here the only deferred
key) whose environment value is absent and which has no usable default
(`getRawValue` resolves to `undefined` and no falsy default is in use).
`st1`/`st1'` are the first-pass states in collect/throw reporter mode.  If
`requiredWhen` applied to the partial output evaluates false, the run
completes with no output entry and no error entry for the key; if it
evaluates true, the missing-value error is recorded (collect mode) or
thrown (null-reporter mode). -/
theorem c3_requiredWhen_gates_missing (specs : SpecMap) (env : EnvMap)
    (k : String) (s : Spec) (rw : EnvMap → Bool) (st1 st1' : PassState)
    (hk : getSpec specs k = s)
    (hrw : s.requiredWhen? = some rw)
    (honly : deferredKeysOf specs = [k])
    (hraw : getRawValue s env k = JSVal.undef)
    (hfd : usingFalsyDefault s env JSVal.undef = false)
    (hst1 : processKeys specs env false false
      { output := [], errors := [], deferKeys := [], hasDeferments := false }
      (specKeys specs) = .ok st1)
    (hst1' : processKeys specs env true false
      { output := [], errors := [], deferKeys := [], hasDeferments := false }
      (specKeys specs) = .ok st1') :
    (rw st1.output = false →
       validateSpecs specs env false [] [] = .ok (st1.output, []) ∧
       lookupKey st1.output k = none ∧ lookupKey st1.errors k = none) ∧
    (rw st1.output = true →
       validateSpecs specs env false [] [] =
         .ok (st1.output, [(k, .envMissingError (formatSpecDescription s))])) ∧
    (rw st1'.output = false →
       validateSpecs specs env true [] [] = .ok (st1'.output, [])) ∧
    (rw st1'.output = true →
       validateSpecs specs env true [] [] =
         .error (.envMissingError (formatSpecDescription s))) := by
  have hreqg : (getSpec specs k).requiredWhen? = some rw := by
    rw [hk]; exact hrw
  have komiss : keyOutcome specs env k =
      .error (.envMissingError (formatSpecDescription s)) :=
    keyOutcome_missing specs env k s hk hraw hfd
  have main : ∀ (rep : Bool) (stp : PassState),
      processKeys specs env rep false
        { output := [], errors := [], deferKeys := [], hasDeferments := false }
        (specKeys specs) = .ok stp →
      validateSpecs specs env rep [] [] =
        (if !(rw stp.output) then .ok (stp.output, [])
         else if rep then
           .error (.envMissingError (formatSpecDescription s))
         else
           .ok (stp.output, [(k, .envMissingError (formatSpecDescription s))])) := by
    intro rep stp hst
    have htrack := processKeys_phase1_defer_tracking specs env rep
      (specKeys specs) _ _ hst
    have hdk : stp.deferKeys = [k] := by
      rw [htrack.1]
      simp only [List.nil_append]
      exact honly
    have hhd : stp.hasDeferments = true := by
      rw [htrack.2, show (specKeys specs).filter (isDeferredKey specs) = [k]
        from honly]
      simp
    rw [validateSpecs_top]
    simp only [hst, hhd, hdk]
    simp only [List.isEmpty_cons, Bool.not_false, Bool.and_self, if_true]
    simp only [processKeys, processKey_defer2 specs env rep _ k rw hreqg, komiss]
    cases hrwv : rw stp.output with
    | false => simp [hrwv, processKeys]
    | true =>
      cases rep with
      | false => simp [hrwv, processKeys, setKey]
      | true => simp [hrwv]
  refine ⟨?_, ?_, ?_, ?_⟩
  · intro hrwv
    refine ⟨?_, ?_, ?_⟩
    · rw [main false st1 hst1]
      simp [hrwv]
    · have hskip := processKeys_phase1_skips_deferred specs env false k rw hreqg
        (specKeys specs) _ _ hst1
      rw [hskip.1]
      rfl
    · have hskip := processKeys_phase1_skips_deferred specs env false k rw hreqg
        (specKeys specs) _ _ hst1
      rw [hskip.2]
      rfl
  · intro hrwv
    rw [main false st1 hst1]
    simp [hrwv]
  · intro hrwv
    rw [main true st1' hst1']
    simp [hrwv]
  · intro hrwv
    rw [main true st1' hst1']
    simp [hrwv]

/-- Witness for `c3_requiredWhen_gates_missing`: one immediate key `A` with
a present value, one deferred key `B` with no value and no default.  The
instantiated conclusion exhibits both the discarded and the recorded
outcome shapes. -/
theorem c3_witness :
    ((fun _ => true : EnvMap → Bool) ([("A", JSVal.str "x")]) = false →
       validateSpecs
           [("A", { parse? := some strParse }),
            ("B", { desc := some "B desc", requiredWhen? := some (fun _ => true) })]
           [("A", JSVal.str "x")] false [] [] =
         .ok ([("A", JSVal.str "x")], []) ∧
       lookupKey [("A", JSVal.str "x")] "B" = none ∧
       lookupKey ([] : List (String × JSError)) "B" = none) ∧
    ((fun _ => true : EnvMap → Bool) ([("A", JSVal.str "x")]) = true →
       validateSpecs
           [("A", { parse? := some strParse }),
            ("B", { desc := some "B desc", requiredWhen? := some (fun _ => true) })]
           [("A", JSVal.str "x")] false [] [] =
         .ok ([("A", JSVal.str "x")],
           [("B", .envMissingError "B desc")])) ∧
    ((fun _ => true : EnvMap → Bool) ([("A", JSVal.str "x")]) = false →
       validateSpecs
           [("A", { parse? := some strParse }),
            ("B", { desc := some "B desc", requiredWhen? := some (fun _ => true) })]
           [("A", JSVal.str "x")] true [] [] =
         .ok ([("A", JSVal.str "x")], [])) ∧
    ((fun _ => true : EnvMap → Bool) ([("A", JSVal.str "x")]) = true →
       validateSpecs
           [("A", { parse? := some strParse }),
            ("B", { desc := some "B desc", requiredWhen? := some (fun _ => true) })]
           [("A", JSVal.str "x")] true [] [] =
         .error (.envMissingError "B desc")) :=
  c3_requiredWhen_gates_missing
    [("A", { parse? := some strParse }),
     ("B", { desc := some "B desc", requiredWhen? := some (fun _ => true) })]
    [("A", JSVal.str "x")] "B"
    { desc := some "B desc", requiredWhen? := some (fun _ => true) }
    (fun _ => true)
    { output := [("A", JSVal.str "x")], errors := [], deferKeys := ["B"],
      hasDeferments := true }
    { output := [("A", JSVal.str "x")], errors := [], deferKeys := ["B"],
      hasDeferments := true }
    rfl rfl rfl (by decide) (by decide) rfl rfl

/-- C4 counterexample: two deferred keys `A` (valid value present,
`requiredWhen` never consulted) and `B` (missing, with
`requiredWhen(output) := output.A === "a"`).  Under the claim — deferred
keys mutually isolated — `B`'s predicate would see an output without `A`
and return false, discarding the failure, so no `B` error could appear.
The run instead records the `B` missing-value error: `B`'s `requiredWhen`
received the partial output already containing the value produced by
validating `A` in the same defer pass. -/
theorem c4_counterexample :
    validateSpecs
        [("A", { parse? := some strParse, requiredWhen? := some (fun _ => true) }),
         ("B", { desc := some "B desc",
                 requiredWhen? :=
                   some (fun out => lookupKey out "A" = some (JSVal.str "a")) })]
        [("A", JSVal.str "a")] false [] [] =
      .ok ([("A", JSVal.str "a")], [("B", .envMissingError "B desc")]) ∧
    (fun out => (lookupKey out "A" = some (JSVal.str "a") : Bool))
        ([] : EnvMap) = false := by
  constructor
  · rw [validateSpecs_eq_twoPass]
    rfl
  · rfl

/-- C4 (amended): deferred keys are processed sequentially over the shared
output in queue order, so a deferred key's `requiredWhen` predicate *does*
observe the validated output of deferred keys processed earlier in the same
defer pass (here `A`'s value, present in the partial output handed to `B`'s
predicate); only its own and later-queued deferred keys' values are absent.
Single-pass: the queue is walked exactly once. -/
theorem c4_deferred_see_earlier_deferred (specs : SpecMap) (env : EnvMap)
    (a b : String) (sb : Spec) (rwb : EnvMap → Bool) (va : JSVal)
    (eb : JSError) (st1 : PassState)
    (hkb : getSpec specs b = sb)
    (hrwb : sb.requiredWhen? = some rwb)
    (hdefer : deferredKeysOf specs = [a, b])
    (hoa : keyOutcome specs env a = .ok va)
    (hob : keyOutcome specs env b = .error eb)
    (hst1 : processKeys specs env false false
      { output := [], errors := [], deferKeys := [], hasDeferments := false }
      (specKeys specs) = .ok st1) :
    lookupKey (setKey st1.output a va) a = some va ∧
    (rwb (setKey st1.output a va) = false →
       validateSpecs specs env false [] [] = .ok (setKey st1.output a va, [])) ∧
    (rwb (setKey st1.output a va) = true →
       validateSpecs specs env false [] [] =
         .ok (setKey st1.output a va, [(b, eb)])) := by
  have hda : isDeferredKey specs a = true := by
    have hmem : a ∈ (specKeys specs).filter (isDeferredKey specs) := by
      rw [show (specKeys specs).filter (isDeferredKey specs) = [a, b] from hdefer]
      exact List.mem_cons_self a [b]
    exact List.of_mem_filter hmem
  obtain ⟨rwa, hreqa⟩ := Option.isSome_iff_exists.mp hda
  have hreqb : (getSpec specs b).requiredWhen? = some rwb := by
    rw [hkb]; exact hrwb
  have htrack := processKeys_phase1_defer_tracking specs env false
    (specKeys specs) _ _ hst1
  have hdk : st1.deferKeys = [a, b] := by
    rw [htrack.1]
    simp only [List.nil_append]
    exact hdefer
  have hhd : st1.hasDeferments = true := by
    rw [htrack.2, show (specKeys specs).filter (isDeferredKey specs) = [a, b]
      from hdefer]
    simp
  refine ⟨lookupKey_setKey_self _ _ _, ?_, ?_⟩
  all_goals
    intro hrwv
    rw [validateSpecs_top]
    simp only [hst1, hhd, hdk]
    simp only [List.isEmpty_cons, Bool.not_false, Bool.and_self, if_true]
    simp only [processKeys, processKey_defer2 specs env false _ a rwa hreqa, hoa]
    simp only [processKey_defer2 specs env false _ b rwb hreqb, hob]
    simp [hrwv, processKeys, setKey]

/-- Witness for `c4_deferred_see_earlier_deferred` at the concrete inputs of
the counterexample shape: both keys deferred, `A` validating to `"a"`,
`B` missing. -/
theorem c4_witness :
    lookupKey (setKey ([] : EnvMap) "A" (JSVal.str "a")) "A"
      = some (JSVal.str "a") ∧
    ((fun out => (lookupKey out "A" = some (JSVal.str "a") : Bool))
        (setKey ([] : EnvMap) "A" (JSVal.str "a")) = false →
      validateSpecs
          [("A", { parse? := some strParse, requiredWhen? := some (fun _ => true) }),
           ("B", { desc := some "B desc",
                   requiredWhen? :=
                     some (fun out => lookupKey out "A" = some (JSVal.str "a")) })]
          [("A", JSVal.str "a")] false [] [] =
        .ok (setKey ([] : EnvMap) "A" (JSVal.str "a"), [])) ∧
    ((fun out => (lookupKey out "A" = some (JSVal.str "a") : Bool))
        (setKey ([] : EnvMap) "A" (JSVal.str "a")) = true →
      validateSpecs
          [("A", { parse? := some strParse, requiredWhen? := some (fun _ => true) }),
           ("B", { desc := some "B desc",
                   requiredWhen? :=
                     some (fun out => lookupKey out "A" = some (JSVal.str "a")) })]
          [("A", JSVal.str "a")] false [] [] =
        .ok (setKey ([] : EnvMap) "A" (JSVal.str "a"),
          [("B", .envMissingError "B desc")])) :=
  c4_deferred_see_earlier_deferred
    [("A", { parse? := some strParse, requiredWhen? := some (fun _ => true) }),
     ("B", { desc := some "B desc",
             requiredWhen? :=
               some (fun out => lookupKey out "A" = some (JSVal.str "a")) })]
    [("A", JSVal.str "a")] "A" "B"
    { desc := some "B desc",
      requiredWhen? := some (fun out => lookupKey out "A" = some (JSVal.str "a")) }
    (fun out => lookupKey out "A" = some (JSVal.str "a"))
    (JSVal.str "a") (.envMissingError "B desc")
    { output := [], errors := [], deferKeys := ["A", "B"], hasDeferments := true }
    rfl rfl rfl rfl rfl rfl

/-- C5: structure of every completed `validateSpecs` run (termination for
every spec map is witnessed by `validateSpecs` being a total Lean
function).  The run is exactly: one first pass over `Object.keys(specs)` in
which every key without `requiredWhen` is validated and every key with
`requiredWhen` is only queued (the queue ends up being precisely the
`requiredWhen` keys, in order — hence each is attempted exactly once, and
only after all non-deferred keys are settled); then, if and only if the
queue is non-empty, a single defer pass over that queue starting from the
first-pass output — which already contains the result of every
successfully-validated non-deferred key. -/
theorem c5_two_phase (specs : SpecMap) (env : EnvMap) (rep : Bool)
    (res : EnvMap × List (String × JSError))
    (hN : (specKeys specs).Nodup)
    (hok : validateSpecs specs env rep [] [] = .ok res) :
    ∃ st1, processKeys specs env rep false
        { output := [], errors := [], deferKeys := [], hasDeferments := false }
        (specKeys specs) = .ok st1 ∧
      st1.deferKeys = deferredKeysOf specs ∧
      (∀ k v, k ∈ specKeys specs → (getSpec specs k).requiredWhen? = none →
        keyOutcome specs env k = .ok v → lookupKey st1.output k = some v) ∧
      (deferredKeysOf specs = [] → res = (st1.output, st1.errors)) ∧
      (deferredKeysOf specs ≠ [] →
        ∃ st2, processKeys specs env rep true
            { output := st1.output, errors := [], deferKeys := st1.deferKeys,
              hasDeferments := false } st1.deferKeys = .ok st2 ∧
          res = (st2.output, st2.errors)) := by
  rw [validateSpecs_top] at hok
  cases hp1 : processKeys specs env rep false
      { output := [], errors := [], deferKeys := [], hasDeferments := false }
      (specKeys specs) with
  | error e =>
    rw [hp1] at hok
    exact absurd hok (by simp)
  | ok st1 =>
    rw [hp1] at hok
    simp only [] at hok
    have htrack := processKeys_phase1_defer_tracking specs env rep
      (specKeys specs) _ _ hp1
    have hdk : st1.deferKeys = deferredKeysOf specs := by
      rw [htrack.1]
      simp only [List.nil_append]
      rfl
    have hsucc : ∀ k v, k ∈ specKeys specs →
        (getSpec specs k).requiredWhen? = none →
        keyOutcome specs env k = .ok v → lookupKey st1.output k = some v := by
      intro k v hmem hreq hout
      exact processKeys_phase1_imm_success specs env rep k v hreq hout
        (specKeys specs) _ _ hN hp1 hmem
    refine ⟨st1, rfl, hdk, hsucc, ?_, ?_⟩
    · intro hempty
      have hcond : (st1.hasDeferments && !st1.deferKeys.isEmpty) = false := by
        rw [hdk, hempty]
        simp
      rw [hcond] at hok
      simp only [Bool.false_eq_true, if_false] at hok
      exact (Except.ok.injEq _ _ ▸ hok).symm
    · intro hne
      have hcond : (st1.hasDeferments && !st1.deferKeys.isEmpty) = true := by
        rw [htrack.2, hdk]
        cases hfe : deferredKeysOf specs with
        | nil => exact absurd hfe hne
        | cons x xs =>
          have : (specKeys specs).filter (isDeferredKey specs) = x :: xs := hfe
          rw [this]
          simp
      rw [hcond] at hok
      simp only [if_true] at hok
      cases hp2 : processKeys specs env rep true
          { output := st1.output, errors := [], deferKeys := st1.deferKeys,
            hasDeferments := false } st1.deferKeys with
      | error e =>
        rw [hp2] at hok
        exact Except.noConfusion hok
      | ok st2 =>
        rw [hp2] at hok
        refine ⟨st2, rfl, ?_⟩
        exact (Except.ok.injEq _ _ ▸ hok).symm

/-- Witness for `c5_two_phase`: one immediate key `A` (validated in the
first pass, its value visible to the defer pass) and one deferred key `B`
(queued, then attempted once in the defer pass). -/
theorem c5_witness :
    ∃ st1, processKeys
        [("A", { parse? := some strParse }),
         ("B", { desc := some "B desc", requiredWhen? := some (fun _ => true) })]
        [("A", JSVal.str "x")] false false
        { output := [], errors := [], deferKeys := [], hasDeferments := false }
        (specKeys
          [("A", { parse? := some strParse }),
           ("B", { desc := some "B desc",
                   requiredWhen? := some (fun _ => true) })]) = .ok st1 ∧
      st1.deferKeys = deferredKeysOf
        [("A", { parse? := some strParse }),
         ("B", { desc := some "B desc", requiredWhen? := some (fun _ => true) })] ∧
      (∀ k v, k ∈ specKeys
          [("A", { parse? := some strParse }),
           ("B", { desc := some "B desc",
                   requiredWhen? := some (fun _ => true) })] →
        (getSpec
          [("A", { parse? := some strParse }),
           ("B", { desc := some "B desc",
                   requiredWhen? := some (fun _ => true) })] k).requiredWhen? = none →
        keyOutcome
          [("A", { parse? := some strParse }),
           ("B", { desc := some "B desc",
                   requiredWhen? := some (fun _ => true) })]
          [("A", JSVal.str "x")] k = .ok v →
        lookupKey st1.output k = some v) ∧
      (deferredKeysOf
          [("A", { parse? := some strParse }),
           ("B", { desc := some "B desc",
                   requiredWhen? := some (fun _ => true) })] = [] →
        ([("A", JSVal.str "x")],
          [("B", JSError.envMissingError "B desc")]) = (st1.output, st1.errors)) ∧
      (deferredKeysOf
          [("A", { parse? := some strParse }),
           ("B", { desc := some "B desc",
                   requiredWhen? := some (fun _ => true) })] ≠ [] →
        ∃ st2, processKeys
            [("A", { parse? := some strParse }),
             ("B", { desc := some "B desc",
                     requiredWhen? := some (fun _ => true) })]
            [("A", JSVal.str "x")] false true
            { output := st1.output, errors := [], deferKeys := st1.deferKeys,
              hasDeferments := false } st1.deferKeys = .ok st2 ∧
          ([("A", JSVal.str "x")],
            [("B", JSError.envMissingError "B desc")]) = (st2.output, st2.errors)) :=
  c5_two_phase
    [("A", { parse? := some strParse }),
     ("B", { desc := some "B desc", requiredWhen? := some (fun _ => true) })]
    [("A", JSVal.str "x")] false
    ([("A", JSVal.str "x")], [("B", JSError.envMissingError "B desc")])
    (by decide)
    (by rw [validateSpecs_eq_twoPass]; rfl)

/-- The caller's input object after `cleanEnv` is whatever `getEnv` left of
it: everything after `getEnv` works on fresh objects. -/
theorem cleanEnv_inputEnvAfter (inputEnv : EnvMap) (userSpecs : SpecMap)
    (options : CleanOptions) (dotEnvFile : DotEnvFile) :
    (cleanEnv inputEnv userSpecs options dotEnvFile).inputEnvAfter =
      (getEnv inputEnv options.dotEnvPathIsNull dotEnvFile).inputEnvAfter := by
  unfold cleanEnv
  cases hv : validateSpecs (extend [("NODE_ENV", nodeEnvSpec)] userSpecs)
      (getEnv inputEnv options.dotEnvPathIsNull dotEnvFile).env
      options.reporterIsNull [] [] with
  | error e => simp only [hv]
  | ok p =>
    obtain ⟨output, errors⟩ := p
    simp only [hv]

/-- C8 counterexample: `cleanEnv` with dotenv merging disabled
(`dotEnvPath: null`) and an input whose `NODE_ENV` is the empty string.
`getEnv` then aliases the caller's object and `delete env.NODE_ENV`
removes the entry from it in place: after the call the caller's map no
longer holds the `NODE_ENV` key it held before. -/
theorem c8_counterexample :
    (cleanEnv [("NODE_ENV", JSVal.str "")] []
        { dotEnvPathIsNull := true } .missing).inputEnvAfter = [] ∧
    ([("NODE_ENV", JSVal.str "")] : EnvMap) ≠ [] := by
  constructor
  · rw [cleanEnv_inputEnvAfter]
    rfl
  · decide

/-- C8 (amended): `cleanEnv` never mutates the caller's environment map
except in one case.  When a dotenv file is merged (`dotEnvPath` not null
and the file present) the engine works on a fresh copy and the input is
untouched; likewise whenever the input's `NODE_ENV` read is truthy.  But
when the working env aliases the input (`dotEnvPath: null`, or the dotenv
file missing) and the input's `NODE_ENV` reads falsy, the `NODE_ENV` entry
is deleted from the caller's object in place (observable exactly when the
key was present, e.g. with value `""`). -/
theorem c8_mutation_characterised :
    (∀ (inputEnv : EnvMap) (userSpecs : SpecMap) (options : CleanOptions)
        (parsed : EnvMap),
       options.dotEnvPathIsNull = false →
       (cleanEnv inputEnv userSpecs options (.present parsed)).inputEnvAfter
         = inputEnv) ∧
    (∀ (inputEnv : EnvMap) (userSpecs : SpecMap) (options : CleanOptions)
        (dotEnvFile : DotEnvFile),
       jsTruthy (readJS inputEnv "NODE_ENV") = true →
       (cleanEnv inputEnv userSpecs options dotEnvFile).inputEnvAfter
         = inputEnv) ∧
    (∀ (inputEnv : EnvMap) (userSpecs : SpecMap) (options : CleanOptions)
        (dotEnvFile : DotEnvFile),
       (options.dotEnvPathIsNull = true ∨ dotEnvFile = .missing) →
       jsTruthy (readJS inputEnv "NODE_ENV") = false →
       (cleanEnv inputEnv userSpecs options dotEnvFile).inputEnvAfter
         = eraseKey inputEnv "NODE_ENV") := by
  refine ⟨?_, ?_, ?_⟩
  · intro inputEnv userSpecs options parsed hnull
    rw [cleanEnv_inputEnvAfter]
    simp [getEnv, hnull]
  · intro inputEnv userSpecs options dotEnvFile htr
    rw [cleanEnv_inputEnvAfter]
    have hne : readJS inputEnv "NODE_ENV" ≠ JSVal.str "" := by
      intro hh
      rw [hh] at htr
      exact absurd htr (by decide)
    cases hnull : options.dotEnvPathIsNull with
    | true => simp [getEnv, hnull, htr, hne]
    | false =>
      cases dotEnvFile with
      | missing => simp [getEnv, hnull, extendWithDotEnv, htr, hne]
      | present parsed => simp [getEnv, hnull]
  · intro inputEnv userSpecs options dotEnvFile halias hfal
    rw [cleanEnv_inputEnvAfter]
    cases halias with
    | inl hnull => simp [getEnv, hnull, hfal]
    | inr hmiss =>
      cases hnull : options.dotEnvPathIsNull with
      | true => simp [getEnv, hnull, hfal]
      | false => simp [getEnv, hnull, hmiss, extendWithDotEnv, hfal]

/-- Witness for `c8_mutation_characterised` at concrete inputs: a merged
dotenv file leaves the input alone, a truthy `NODE_ENV` leaves it alone,
and the aliased falsy case deletes `NODE_ENV` in place. -/
theorem c8_witness :
    (cleanEnv [("NODE_ENV", JSVal.str "")] [] {} (.present [("X", JSVal.str "1")])).inputEnvAfter
      = [("NODE_ENV", JSVal.str "")] ∧
    (cleanEnv [("NODE_ENV", JSVal.str "test")] [] { dotEnvPathIsNull := true }
        .missing).inputEnvAfter = [("NODE_ENV", JSVal.str "test")] ∧
    (cleanEnv [("NODE_ENV", JSVal.str "")] [] {} .missing).inputEnvAfter
      = eraseKey [("NODE_ENV", JSVal.str "")] "NODE_ENV" :=
  ⟨c8_mutation_characterised.1 [("NODE_ENV", JSVal.str "")] [] {}
      [("X", JSVal.str "1")] rfl,
   c8_mutation_characterised.2.1 [("NODE_ENV", JSVal.str "test")] []
      { dotEnvPathIsNull := true } .missing (by decide),
   c8_mutation_characterised.2.2 [("NODE_ENV", JSVal.str "")] [] {} .missing
      (Or.inr rfl) (by decide)⟩

/-- C9: on every successful `cleanEnv` return the object is frozen as the
final step — whatever the options, and in particular regardless of whether
the error map handed to the reporter was empty.  With no transformer
replacing the object, the flag properties defined by
`Object.defineProperties` are non-writable, and when the validated mode key
is `"test"` they read `isTest = true` and
`isDev = isDevelopment = isProd = isProduction = false`. -/
theorem c9_mode_flags_and_freeze (inputEnv : EnvMap) (userSpecs : SpecMap)
    (options : CleanOptions) (dotEnvFile : DotEnvFile) (obj : CleanObj)
    (hrun : (cleanEnv inputEnv userSpecs options dotEnvFile).result = .ok obj) :
    obj.frozen = true ∧
    (options.transformer = none →
      obj.flagsWritable = false ∧
      ∀ output errors,
        validateSpecs (extend [("NODE_ENV", nodeEnvSpec)] userSpecs)
            (getEnv inputEnv options.dotEnvPathIsNull dotEnvFile).env
            options.reporterIsNull [] [] = .ok (output, errors) →
        readJS output "NODE_ENV" = .str "test" →
        obj.flags = some
          { isDevelopment := false, isDev := false, isProduction := false,
            isProd := false, isTest := true }) := by
  simp only [cleanEnv] at hrun
  cases hv : validateSpecs (extend [("NODE_ENV", nodeEnvSpec)] userSpecs)
      (getEnv inputEnv options.dotEnvPathIsNull dotEnvFile).env
      options.reporterIsNull [] [] with
  | error e =>
    rw [hv] at hrun
    exact absurd hrun (by simp)
  | ok p =>
    obtain ⟨output0, errors0⟩ := p
    rw [hv] at hrun
    have hobj := (Except.ok.inj hrun).symm
    constructor
    · rw [hobj]
    · intro htr
      rw [hobj]
      simp only [htr]
      constructor
      · cases hs : options.strict <;> simp [strictProxy, hs]
      · intro output errors hveq hmode
        have hsame : output = output0 :=
          (congrArg Prod.fst (Except.ok.inj hveq)).symm
        rw [hsame] at hmode
        rw [hmode]
        cases hs : options.strict <;> simp [strictProxy, hs]

/-- Witness for `c9_mode_flags_and_freeze`: `NODE_ENV=test` with default
options; the returned object carries `isTest` and is frozen. -/
theorem c9_witness :
    ({ props := [("NODE_ENV", JSVal.str "test")],
       flags := some
         { isDevelopment := false, isDev := false, isProduction := false,
           isProd := false, isTest := true },
       flagsWritable := false, frozen := true } : CleanObj).frozen = true ∧
    (({} : CleanOptions).transformer = none →
      ({ props := [("NODE_ENV", JSVal.str "test")],
         flags := some
           { isDevelopment := false, isDev := false, isProduction := false,
             isProd := false, isTest := true },
         flagsWritable := false, frozen := true } : CleanObj).flagsWritable = false ∧
      ∀ output errors,
        validateSpecs (extend [("NODE_ENV", nodeEnvSpec)] [])
            (getEnv [("NODE_ENV", JSVal.str "test")]
              ({} : CleanOptions).dotEnvPathIsNull .missing).env
            ({} : CleanOptions).reporterIsNull [] [] = .ok (output, errors) →
        readJS output "NODE_ENV" = .str "test" →
        ({ props := [("NODE_ENV", JSVal.str "test")],
           flags := some
             { isDevelopment := false, isDev := false, isProduction := false,
               isProd := false, isTest := true },
           flagsWritable := false, frozen := true } : CleanObj).flags = some
          { isDevelopment := false, isDev := false, isProduction := false,
            isProd := false, isTest := true }) :=
  c9_mode_flags_and_freeze [("NODE_ENV", JSVal.str "test")] [] {} .missing
    { props := [("NODE_ENV", JSVal.str "test")],
      flags := some
        { isDevelopment := false, isDev := false, isProduction := false,
          isProd := false, isTest := true },
      flagsWritable := false, frozen := true }
    (by simp only [cleanEnv]
        rw [validateSpecs_eq_twoPass]
        rfl)

/-- C1 evidence (code bug): with a collecting reporter, `FOO` (no value, no
default, no `requiredWhen`) fails in the first pass and its error is
recorded, and `BAR` (no value, `requiredWhen` true) fails in the defer
pass.  The recursive `validateSpecs` call creates a fresh `errors` object
and the first pass's error map is discarded, so the reporter is handed an
error map holding only `BAR` — even though, as the second conjunct shows,
`FOO`'s validation fails with a missing-value error in the same run.  The
claim (and spec) say every per-key error reaches the reporter's map. -/
theorem c1_phase1_errors_dropped :
    ((cleanEnv []
        [("FOO", { parse? := some strParse, desc := some "foo desc" }),
         ("BAR", { parse? := some strParse, desc := some "bar desc",
                   requiredWhen? := some (fun _ => true) })]
        {} .missing).reporterCalls.map Prod.fst =
      [[("BAR", JSError.envMissingError "bar desc")]]) ∧
    keyOutcome
        (extend [("NODE_ENV", nodeEnvSpec)]
          [("FOO", { parse? := some strParse, desc := some "foo desc" }),
           ("BAR", { parse? := some strParse, desc := some "bar desc",
                     requiredWhen? := some (fun _ => true) })])
        [] "FOO" = .error (.envMissingError "foo desc") := by
  constructor
  · simp only [cleanEnv]
    rw [validateSpecs_eq_twoPass]
    rfl
  · rfl

end Envalid
